import Mathlib

/-
Verification of the better-middleware session-validation pipeline.

The development shallowly embeds the core of the repository:
  * the error classifier (src/utils/error.ts: ERROR_MESSAGES, getErrorMessage,
    createErrorResponse),
  * the cookie token extractor (src/utils/cache.ts: SessionCache.extractSessionToken,
    which matches the JavaScript regular expressions name=([^;]+) built from each
    candidate cookie name, where the dot in a name is a wildcard),
  * the session cache (src/utils/cache.ts: SessionCache). The lru-cache library
    that backs it is an external npm dependency whose source is not part of the
    repository, so the cache operations are modelled from the specification's
    description of the cache contract (bounded map, strict LRU eviction,
    absolute per-entry time-to-live, get refreshes recency),
  * the authentication orchestrator (src/index.ts: createAuthMiddleware), as a
    pure function from a request, a resolver outcome, a cache state and
    timestamps to a run result recording the terminal response, the number of
    remote calls, the context injections, and the cache state afterwards.
-/

set_option autoImplicit false

namespace BetterMiddleware

/-- Resolved identity (BetterAuthUser from src/types: id, email, optional name). -/
structure BetterAuthUser where
  id : String
  email : String
  name : Option String
deriving DecidableEq, Repr

/-- Resolved session (BetterAuthSession from src/types: id, userId, expiresAt). -/
structure BetterAuthSession where
  id : String
  userId : String
  expiresAt : String
deriving DecidableEq, Repr

/-- The (user, session) pair cached and injected (AuthContext in src/types). -/
structure AuthContext where
  user : BetterAuthUser
  session : BetterAuthSession
deriving DecidableEq, Repr

/-- Payload of a successful remote response; either field may be missing
(sessionResponse.data?.user, sessionResponse.data?.session in src/index.ts). -/
structure SessionData where
  user : Option BetterAuthUser
  session : Option BetterAuthSession
deriving DecidableEq, Repr

/-- Error object of the remote authenticator (BetterAuthError in src/types);
all fields may be absent on an arbitrary error value. -/
structure BetterAuthError where
  code : Option String
  message : Option String
  status : Option Nat
deriving DecidableEq, Repr

/-- Remote resolver response shape ({ data, error } in src/index.ts). -/
structure BetterAuthSessionResponse where
  data : Option SessionData
  error : Option BetterAuthError
deriving DecidableEq, Repr

/-- Body of the failure response built by createErrorResponse:
{ success, message, code }. -/
structure AuthResponseBody where
  success : Bool
  message : String
  code : String
deriving DecidableEq, Repr

/-- Terminal response produced on failure: the (body, status) pair handed to
the framework adapter's createResponse in src/utils/error.ts. -/
structure AuthResponse where
  status : Nat
  body : AuthResponseBody
deriving DecidableEq, Repr

/-- JavaScript truthiness coalescing for an optional string: the empty string
is falsy, exactly as in the source's uses of || and of conditional tests. -/
def truthyS : Option String → Option String
  | some s => if s = "" then none else some s
  | none => none

/-- JavaScript truthiness coalescing for an optional number: 0 is falsy. -/
def truthyN : Option Nat → Option Nat
  | some n => if n = 0 then none else some n
  | none => none

/-- The fixed bilingual dictionary ERROR_MESSAGES of src/utils/error.ts;
the pair holds the English and the Spanish message, in that order. -/
def ERROR_MESSAGES : String → Option (String × String)
  | "USER_ALREADY_EXISTS" => some ("User already registered", "Usuario ya registrado")
  | "INVALID_CREDENTIALS" => some ("Invalid email or password", "Correo o contraseña inválidos")
  | "UNAUTHORIZED" => some ("Unauthorized access", "Acceso no autorizado")
  | "SESSION_EXPIRED" => some ("Session has expired", "La sesión ha expirado")
  | "INVALID_SESSION" => some ("Invalid or missing session", "Sesión inválida o faltante")
  | _ => none

/-- getErrorMessage of src/utils/error.ts: dictionary lookup with the
"Unknown error" fallback of the || operator (an empty message would also
fall back, mirroring JavaScript truthiness). -/
def getErrorMessage (errorCode : String) (lang : String) : String :=
  match ERROR_MESSAGES errorCode with
  | some m =>
    let msg := if lang = "es" then m.2 else m.1
    if msg = "" then "Unknown error" else msg
  | none => "Unknown error"

/-- Values thrown inside the middleware body: a plain JavaScript Error with a
message, a BetterAuthError object (the rethrown sessionResponse.error), or any
other value (null, undefined, a string) carrying neither code nor message. -/
inductive ThrownError where
  | jsError (message : String)
  | betterAuth (e : BetterAuthError)
  | other
deriving DecidableEq, Repr

/-- Reading (error as BetterAuthError)?.code on a thrown value. -/
def ThrownError.codeField : ThrownError → Option String
  | .betterAuth e => e.code
  | _ => none

/-- Reading (error as Error)?.message on a thrown value. -/
def ThrownError.messageField : ThrownError → Option String
  | .jsError m => some m
  | .betterAuth e => e.message
  | .other => none

/-- Reading (error as BetterAuthError)?.status on a thrown value. -/
def ThrownError.statusField : ThrownError → Option Nat
  | .betterAuth e => e.status
  | _ => none

/-- createErrorResponse of src/utils/error.ts: code defaults to UNAUTHORIZED,
message is the dictionary message when a truthy code is present, else the
error's own message, else "Invalid or missing session"; status defaults
to 401. The framework adapter's createResponse is modelled as pairing the
body with the status. -/
def createErrorResponse (error : ThrownError) : AuthResponse :=
  let code := (truthyS error.codeField).getD "UNAUTHORIZED"
  let message :=
    match truthyS error.codeField with
    | some _ => getErrorMessage code "en"
    | none => (truthyS error.messageField).getD "Invalid or missing session"
  let status := (truthyN error.statusField).getD 401
  { status := status, body := { success := false, message := message, code := code } }

/-- Matching of one regular-expression pattern character against one input
character: the dot of the JavaScript pattern is a wildcard, every other
character of the cookie names and the equals sign are literal. -/
def matchPatAt : List Char → List Char → Option (List Char)
  | [], s => some s
  | _ :: _, [] => none
  | p :: ps, c :: cs => if p = '.' ∨ p = c then matchPatAt ps cs else none

/-- Scanning of cookieString.match(new RegExp(name + "=([^;]+)")): the engine
tries start positions left to right; at a position where the name pattern
matches, the greedy capture takes the maximal run of characters other than a
semicolon, and the position only yields a match when that run is non-empty. -/
def scanMatch (pat : List Char) : List Char → Option (List Char)
  | [] => none
  | c :: cs =>
    match matchPatAt pat (c :: cs) with
    | some rest =>
      if rest.takeWhile (fun ch => ch != ';') = [] then scanMatch pat cs
      else some (rest.takeWhile (fun ch => ch != ';'))
    | none => scanMatch pat cs

/-- Pattern for the namespaced cookie name followed by the equals sign;
its dot is a regular-expression wildcard. -/
def nsPat : List Char := "better-auth.session_token=".data

/-- Pattern for the generic session_token cookie name. -/
def genPat : List Char := "session_token=".data

/-- Pattern for the bare session cookie name. -/
def barePat : List Char := "session=".data

/-- SessionCache.extractSessionToken of src/utils/cache.ts: a falsy (empty)
cookie string yields null, then the three cookie names are tried in priority
order and the first regular-expression match anywhere in the string wins. -/
def extractSessionToken (cookieString : String) : Option String :=
  if cookieString = "" then none
  else
    match scanMatch nsPat cookieString.data with
    | some cap => some (String.mk cap)
    | none =>
      match scanMatch genPat cookieString.data with
      | some cap => some (String.mk cap)
      | none =>
        match scanMatch barePat cookieString.data with
        | some cap => some (String.mk cap)
        | none => none

/-- Cache entry: the resolved context together with the millisecond timestamp
of its insertion, from which the absolute time-to-live is measured. -/
structure CacheEntry where
  ctx : AuthContext
  start : Nat
deriving DecidableEq, Repr

/-- Modelled from the spec: the SessionCache of src/utils/cache.ts delegates
to the external lru-cache library (not part of the repository), so the store
is modelled from the specification's cache contract. The entry list is kept
in recency order, most recently touched first, so the last element is the
least-recently-used entry. ttlMs is the time-to-live in milliseconds (the
constructor receives seconds and multiplies by 1000). -/
structure SessionCache where
  max : Nat
  ttlMs : Nat
  entries : List (String × CacheEntry)
deriving DecidableEq, Repr

/-- Lookup of the first entry with the given key in an entry list. -/
def lookupKey : List (String × CacheEntry) → String → Option (String × CacheEntry)
  | [], _ => none
  | p :: l, k => if p.1 = k then some p else lookupKey l k

/-- Removal of the entries with the given key from an entry list. -/
def removeKey : List (String × CacheEntry) → String → List (String × CacheEntry)
  | [], _ => []
  | p :: l, k => if p.1 = k then removeKey l k else p :: removeKey l k

/-- Modelled from the spec: has is true exactly for a present entry whose age
at the current time is still strictly below the time-to-live; a stale entry
answers false exactly like a miss. -/
def SessionCache.has (c : SessionCache) (k : String) (now : Nat) : Bool :=
  match lookupKey c.entries k with
  | some p => decide (now < p.2.start + c.ttlMs)
  | none => false

/-- Modelled from the spec: get returns the context of a fresh entry and
refreshes its recency standing (moves it to the front) without touching its
insertion time, so the absolute expiry is never extended; a stale entry is
lazily removed and the get behaves as a miss. -/
def SessionCache.get (c : SessionCache) (k : String) (now : Nat) :
    Option AuthContext × SessionCache :=
  match lookupKey c.entries k with
  | none => (none, c)
  | some p =>
    if now < p.2.start + c.ttlMs then
      (some p.2.ctx, { c with entries := (k, p.2) :: removeKey c.entries k })
    else
      (none, { c with entries := removeKey c.entries k })

/-- Modelled from the spec: set stores the value under the key with the
current time as insertion time, at the most recent position; when the
capacity is already filled by other keys, the least-recently-used entry
(the last one) is evicted first. -/
def SessionCache.set (c : SessionCache) (k : String) (v : AuthContext) (now : Nat) :
    SessionCache :=
  { c with entries := (k, ⟨v, now⟩) ::
      (if c.max ≤ (removeKey c.entries k).length then (removeKey c.entries k).dropLast
       else removeKey c.entries k) }

/-- Keys currently present in the cache, most recently touched first. -/
def SessionCache.keys (c : SessionCache) : List String :=
  c.entries.map Prod.fst

/-- Insertion time recorded for a key, when present. -/
def startOf (c : SessionCache) (k : String) : Option Nat :=
  (lookupKey c.entries k).map (fun p => p.2.start)

/-- Fresh cache of the given capacity and time-to-live in milliseconds. -/
def SessionCache.mkEmpty (max ttlMs : Nat) : SessionCache :=
  ⟨max, ttlMs, []⟩

/-- Successive insertion of a list of tokens, all with the same value and
timestamp, in list order. -/
def setAll (c : SessionCache) (ts : List String) (v : AuthContext) (now : Nat) :
    SessionCache :=
  ts.foldl (fun acc tk => acc.set tk v now) c

/-- Request headers as the orchestrator reads them: only the cookie header is
consulted by the core (headers.cookie in src/index.ts). -/
structure Headers where
  cookie : Option String

/-- Context values injected through framework.setContext, in call order. -/
inductive Injected where
  | user (u : BetterAuthUser)
  | session (s : BetterAuthSession)
deriving DecidableEq, Repr

/-- Overall outcome of one middleware invocation: success returns undefined
after the continuation, a terminal AuthResponse is returned on a handled
failure, and raised marks an exception escaping the middleware (only a
user error hook can cause this). -/
inductive Outcome where
  | success
  | response (r : AuthResponse)
  | raised (msg : String)
deriving DecidableEq, Repr

/-- Observable result of one middleware invocation. -/
structure RunResult where
  outcome : Outcome
  remoteCalls : Nat
  injected : List Injected
  nextCalled : Bool
  cacheAfter : Option SessionCache
deriving DecidableEq, Repr

/-- Timestamps (milliseconds) at which the run performs its cache
operations: the has check, the get, and the set after remote resolution. -/
structure Times where
  tHas : Nat
  tGet : Nat
  tSet : Nat
deriving DecidableEq, Repr

/-- Data carried from the try body to the catch clause: the thrown error,
the cache state at the moment of the throw, and the number of remote calls
made so far. -/
abbrev CatchInfo := ThrownError × Option SessionCache × Nat

/-- The catch clause of createAuthMiddleware: a configured user error hook
produces the terminal response (or its own exception propagates uncaught),
otherwise the classifier builds the terminal response. -/
def failWith (onError : Option (ThrownError → Except String AuthResponse))
    (e : ThrownError) (cacheOpt : Option SessionCache) (n : Nat) : RunResult :=
  match onError with
  | some hook =>
    match hook e with
    | .ok r => ⟨.response r, n, [], false, cacheOpt⟩
    | .error m => ⟨.raised m, n, [], false, cacheOpt⟩
  | none => ⟨.response (createErrorResponse e), n, [], false, cacheOpt⟩

/-- The remote-resolution part of the try body of createAuthMiddleware: an
explicit error object is rethrown, a response lacking data, user or session
throws the invalid-structure error, and a response carrying both populates
the cache (when enabled), injects user and session and runs the
continuation. The resolver argument is the value the awaited remote call
returns, or the exception it throws. -/
def remoteTry (tok : String) (resolver : Except ThrownError BetterAuthSessionResponse)
    (cacheOpt : Option SessionCache) (t : Times) : RunResult ⊕ CatchInfo :=
  match resolver with
  | .error e => .inr (e, cacheOpt, 1)
  | .ok resp =>
    match resp.error with
    | some err => .inr (.betterAuth err, cacheOpt, 1)
    | none =>
      match resp.data with
      | none => .inr (.jsError "Invalid session response", cacheOpt, 1)
      | some d =>
        match d.session, d.user with
        | some s, some u =>
          .inl ⟨.success, 1, [.user u, .session s], true,
            cacheOpt.map (fun c => c.set tok ⟨u, s⟩ t.tSet)⟩
        | some _, none => .inr (.jsError "Invalid session response", cacheOpt, 1)
        | none, _ => .inr (.jsError "Invalid session response", cacheOpt, 1)

/-- The try body of createAuthMiddleware: cookie extraction, the missing
token throw, the has-then-get cache-hit branch, and the fall-through to
remote resolution. cache0 is the state of the session cache, none when the
cache is disabled. -/
def runTry (req : Headers) (resolver : Except ThrownError BetterAuthSessionResponse)
    (cache0 : Option SessionCache) (t : Times) : RunResult ⊕ CatchInfo :=
  let cookieString := (truthyS req.cookie).getD ""
  match extractSessionToken cookieString with
  | none => .inr (.jsError "No session token found", cache0, 0)
  | some tok =>
    match cache0 with
    | none => remoteTry tok resolver none t
    | some c =>
      if c.has tok t.tHas then
        match c.get tok t.tGet with
        | (some ctx, c2) =>
          .inl ⟨.success, 0, [.user ctx.user, .session ctx.session], true, some c2⟩
        | (none, c2) => remoteTry tok resolver (some c2) t
      else remoteTry tok resolver (some c) t

/-- One full invocation of the middleware returned by createAuthMiddleware:
the try body, with every thrown error diverted to the catch clause. -/
def runMiddleware (onError : Option (ThrownError → Except String AuthResponse))
    (req : Headers) (resolver : Except ThrownError BetterAuthSessionResponse)
    (cache0 : Option SessionCache) (t : Times) : RunResult :=
  match runTry req resolver cache0 t with
  | .inl r => r
  | .inr (e, cOpt, n) => failWith onError e cOpt n

/-- Cookie values whose characters are plain: non-empty, free of the
separator semicolon and of the equals sign. -/
def plainVal (v : String) : Prop :=
  v ≠ "" ∧ ∀ ch ∈ v.data, ch ≠ ';' ∧ ch ≠ '='

/-- Positions at which the equals sign occurs in a character list: the
predicate asserts it occurs at the given index only. -/
def eqOnlyAt (l : List Char) (i : Nat) : Prop :=
  ∀ m, l[m]? = some '=' → m = i

/-- Concrete resolved context used by the cache witnesses. -/
def ctxW : AuthContext := ⟨⟨"u1", "e", none⟩, ⟨"s1", "u1", "x"⟩⟩

/-- Concrete one-entry cache used by the C3 witness: capacity 4, time-to-live
1000 milliseconds, one entry inserted at time 0. -/
def c3cache : SessionCache := ⟨4, 1000, [("a", ⟨ctxW, 0⟩)]⟩

/-- A string with a non-empty character list is not the empty string. -/
theorem str_ne_empty (s : String) (h : s.data ≠ []) : s ≠ "" := by
  intro he
  subst he
  exact h rfl

/-- Classifier on an error with a truthy code: the code is preserved, the
message comes from getErrorMessage, and a missing status defaults to 401. -/
theorem createErrorResponse_coded (c : String) (msg : Option String) (st : Option Nat)
    (hc : c ≠ "") :
    createErrorResponse (.betterAuth ⟨some c, msg, st⟩) =
      ⟨(truthyN st).getD 401, ⟨false, getErrorMessage c "en", c⟩⟩ := by
  simp only [createErrorResponse, ThrownError.codeField, ThrownError.statusField,
    truthyS, if_neg hc, Option.getD_some]

/-- C2 claim (confirmed): for every error value carrying an explicit (truthy)
code, the classifier keeps that code, produces the dictionary message for it
("Session has expired" for SESSION_EXPIRED), falls back to "Unknown error"
for a code absent from the dictionary, and uses status 401 whenever the
error carries no status field. -/
theorem C2_classifier_code_dictionary (c : String) (msg : Option String)
    (st : Option Nat) (hc : c ≠ "") :
    (createErrorResponse (.betterAuth ⟨some c, msg, st⟩)).body.code = c ∧
    (createErrorResponse (.betterAuth ⟨some c, msg, st⟩)).body.message =
      getErrorMessage c "en" ∧
    (∀ m, ERROR_MESSAGES c = some m → m.1 ≠ "" →
      (createErrorResponse (.betterAuth ⟨some c, msg, st⟩)).body.message = m.1) ∧
    (ERROR_MESSAGES c = none →
      (createErrorResponse (.betterAuth ⟨some c, msg, st⟩)).body.message =
        "Unknown error") ∧
    (st = none → (createErrorResponse (.betterAuth ⟨some c, msg, st⟩)).status = 401) ∧
    getErrorMessage "SESSION_EXPIRED" "en" = "Session has expired" := by
  rw [createErrorResponse_coded c msg st hc]
  refine ⟨rfl, rfl, ?_, ?_, ?_, rfl⟩
  · intro m hm hne
    simp [getErrorMessage, hm, hne]
  · intro hm
    simp [getErrorMessage, hm]
  · intro hst
    subst hst
    rfl

/-- Witness for C2 at concrete inputs: the known code SESSION_EXPIRED maps to
its dictionary message, and the unknown code NOT_IN_DICT falls back to
"Unknown error" while being preserved, at the default status 401. -/
theorem C2_classifier_code_dictionary_witness :
    (createErrorResponse (.betterAuth ⟨some "NOT_IN_DICT", some "x", none⟩)).body.code =
      "NOT_IN_DICT" ∧
    (createErrorResponse (.betterAuth ⟨some "NOT_IN_DICT", some "x", none⟩)).body.message =
      getErrorMessage "NOT_IN_DICT" "en" ∧
    (∀ m, ERROR_MESSAGES "NOT_IN_DICT" = some m → m.1 ≠ "" →
      (createErrorResponse (.betterAuth ⟨some "NOT_IN_DICT", some "x", none⟩)).body.message =
        m.1) ∧
    (ERROR_MESSAGES "NOT_IN_DICT" = none →
      (createErrorResponse (.betterAuth ⟨some "NOT_IN_DICT", some "x", none⟩)).body.message =
        "Unknown error") ∧
    ((none : Option Nat) = none →
      (createErrorResponse (.betterAuth ⟨some "NOT_IN_DICT", some "x", none⟩)).status =
        401) ∧
    getErrorMessage "SESSION_EXPIRED" "en" = "Session has expired" :=
  C2_classifier_code_dictionary "NOT_IN_DICT" (some "x") none (by decide)

/-- C1 claim, amended (corrected): on a request with no cookie header and no
error hook, the middleware makes no remote call and returns the terminal
response with status 401, code UNAUTHORIZED and message
"No session token found" — the message of the thrown missing-token error,
which the classifier passes through verbatim (not the fixed
"Invalid or missing session" text the claim stated). -/
theorem C1_no_cookie_terminal_response
    (resolver : Except ThrownError BetterAuthSessionResponse)
    (cache0 : Option SessionCache) (t : Times) :
    runMiddleware none ⟨none⟩ resolver cache0 t =
      ⟨.response ⟨401, ⟨false, "No session token found", "UNAUTHORIZED"⟩⟩,
        0, [], false, cache0⟩ := rfl

/-- Counterexample to C1 as stated: at a concrete no-cookie request the body
message is "No session token found", not "Invalid or missing session". -/
theorem C1_no_cookie_message_counterexample :
    (runMiddleware none ⟨none⟩ (Except.ok ⟨none, none⟩) none ⟨0, 0, 0⟩).outcome =
      .response ⟨401, ⟨false, "No session token found", "UNAUTHORIZED"⟩⟩ ∧
    (runMiddleware none ⟨none⟩ (Except.ok ⟨none, none⟩) none ⟨0, 0, 0⟩).outcome ≠
      .response ⟨401, ⟨false, "Invalid or missing session", "UNAUTHORIZED"⟩⟩ ∧
    (runMiddleware none ⟨none⟩ (Except.ok ⟨none, none⟩) none ⟨0, 0, 0⟩).remoteCalls =
      0 := by
  refine ⟨rfl, ?_, rfl⟩
  decide

/-- Witness for the amended C1 at one concrete resolver, cache and clock. -/
theorem C1_no_cookie_terminal_response_witness :
    runMiddleware none ⟨none⟩ (Except.ok ⟨none, none⟩) none ⟨0, 0, 0⟩ =
      ⟨.response ⟨401, ⟨false, "No session token found", "UNAUTHORIZED"⟩⟩,
        0, [], false, none⟩ :=
  C1_no_cookie_terminal_response (Except.ok ⟨none, none⟩) none ⟨0, 0, 0⟩

/-- Greedy capture over characters all different from the semicolon keeps
the whole list. -/
theorem takeWhile_all (l : List Char) (h : ∀ ch ∈ l, ch ≠ ';') :
    l.takeWhile (fun ch => ch != ';') = l := by
  induction l with
  | nil => rfl
  | cons c cs ih =>
    have hc : (c != ';') = true := by
      simp only [bne_iff_ne, ne_eq]
      exact h c (List.mem_cons_self c cs)
    rw [List.takeWhile_cons, if_pos hc, ih (fun ch hm => h ch (List.mem_cons_of_mem c hm))]

/-- Greedy capture stops exactly at the first semicolon. -/
theorem takeWhile_semi (l tail : List Char) (h : ∀ ch ∈ l, ch ≠ ';') :
    (l ++ ';' :: tail).takeWhile (fun ch => ch != ';') = l := by
  induction l with
  | nil => simp [List.takeWhile_cons]
  | cons c cs ih =>
    have hc : (c != ';') = true := by
      simp only [bne_iff_ne, ne_eq]
      exact h c (List.mem_cons_self c cs)
    rw [List.cons_append, List.takeWhile_cons, if_pos hc,
      ih (fun ch hm => h ch (List.mem_cons_of_mem c hm))]

/-- A pattern matches its own characters at the head of a list (the wildcard
dot matches the dot as well). -/
theorem matchPatAt_self_append (p s : List Char) : matchPatAt p (p ++ s) = some s := by
  induction p with
  | nil => rfl
  | cons c cs ih =>
    rw [List.cons_append]
    show (if c = '.' ∨ c = c then matchPatAt cs (cs ++ s) else none) = some s
    rw [if_pos (Or.inr rfl)]
    exact ih

/-- A successful match of a pattern ending in the equals sign splits the
input after a prefix of the pattern's length whose last character is the
equals sign. -/
theorem matchPatAt_split (q : List Char) :
    ∀ s rest, matchPatAt (q ++ ['=']) s = some rest →
      ∃ t, s = t ++ '=' :: rest ∧ t.length = q.length := by
  induction q with
  | nil =>
    intro s rest h
    match s with
    | [] => exact absurd h (by simp [matchPatAt])
    | c :: cs =>
      simp only [List.nil_append, matchPatAt] at h
      by_cases hc : '=' = '.' ∨ '=' = c
      · rw [if_pos hc] at h
        cases h
        rcases hc with h1 | h2
        · exact absurd h1 (by decide)
        · exact ⟨[], by rw [← h2]; rfl, rfl⟩
      · rw [if_neg hc] at h
        cases h
  | cons a q' ih =>
    intro s rest h
    match s with
    | [] => exact absurd h (by simp [matchPatAt])
    | c :: cs =>
      simp only [List.cons_append, matchPatAt] at h
      by_cases hc : a = '.' ∨ a = c
      · rw [if_pos hc] at h
        obtain ⟨t, hts, hlen⟩ := ih cs rest h
        exact ⟨c :: t, by rw [hts]; rfl, by simp [hlen]⟩
      · rw [if_neg hc] at h
        cases h

/-- The scan succeeds at position zero when the pattern matches there with a
non-empty capture. -/
theorem scanMatch_head_match (pat rest : List Char) (hp : pat ≠ [])
    (hcap : rest.takeWhile (fun ch => ch != ';') ≠ []) :
    scanMatch pat (pat ++ rest) = some (rest.takeWhile (fun ch => ch != ';')) := by
  match pat, hp with
  | p :: ps, _ =>
    have hm : matchPatAt (p :: ps) (p :: (ps ++ rest)) = some rest :=
      matchPatAt_self_append (p :: ps) rest
    rw [List.cons_append]
    simp only [scanMatch, hm, if_neg hcap]

/-- The scan skips a region in which every position either fails to match
or captures nothing. -/
theorem scanMatch_skip (pat : List Char) (u w : List Char)
    (h : ∀ j, j < u.length → ∀ rest, matchPatAt pat (u.drop j ++ w) = some rest →
      rest.takeWhile (fun ch => ch != ';') = []) :
    scanMatch pat (u ++ w) = scanMatch pat w := by
  induction u with
  | nil => rfl
  | cons c u' ih =>
    have hrec : ∀ j, j < u'.length → ∀ rest,
        matchPatAt pat (u'.drop j ++ w) = some rest →
        rest.takeWhile (fun ch => ch != ';') = [] :=
      fun j hj rest hr => h (j + 1) (Nat.succ_lt_succ hj) rest hr
    rw [List.cons_append]
    cases hm : matchPatAt pat (c :: (u' ++ w)) with
    | none =>
      simp only [scanMatch, hm]
      exact ih hrec
    | some rest =>
      have hcap : rest.takeWhile (fun ch => ch != ';') = [] :=
        h 0 (Nat.succ_pos _) rest hm
      simp only [scanMatch, hm, if_pos hcap]
      exact ih hrec

/-- The scan fails altogether when no position matches at all. -/
theorem scanMatch_eq_none (pat s : List Char)
    (h : ∀ j rest, matchPatAt pat (s.drop j) = some rest → False) :
    scanMatch pat s = none := by
  have hs := scanMatch_skip pat s [] (by
    intro j hj rest hr
    rw [List.append_nil] at hr
    exact (h j rest hr).elim)
  rw [List.append_nil] at hs
  rw [hs]
  rfl

/-- A successful match of the namespaced pattern forces an equals sign at
offset 25 of the input, since the pattern is 25 name characters (one of
them the wildcard dot) followed by the equals sign. -/
theorem nsPat_anchor (s rest : List Char) (hm : matchPatAt nsPat s = some rest) :
    s[25]? = some '=' := by
  have he : nsPat = "better-auth.session_token".data ++ ['='] := rfl
  rw [he] at hm
  obtain ⟨t, rfl, hlen⟩ := matchPatAt_split _ s rest hm
  have h25 : t.length = 25 := by rw [hlen]; rfl
  rw [List.getElem?_append_right (by omega), h25]
  simp

/-- A bounded check suffices to locate the equals sign in a list of known
length. -/
theorem eqOnlyAt_bounded (l : List Char) (n i : Nat) (hlen : l.length = n)
    (hb : ∀ m, m < n → l[m]? = some '=' → m = i) : eqOnlyAt l i := by
  intro m hm
  by_cases h : m < n
  · exact hb m h hm
  · rw [List.getElem?_eq_none (by omega)] at hm
    cases hm

/-- Appending equals-sign-free characters does not add equals positions. -/
theorem eqOnlyAt_append (l₁ l₂ : List Char) (i : Nat) (h₁ : eqOnlyAt l₁ i)
    (h₂ : ∀ ch ∈ l₂, ch ≠ '=') : eqOnlyAt (l₁ ++ l₂) i := by
  intro m hm
  rw [List.getElem?_append] at hm
  by_cases h : m < l₁.length
  · rw [if_pos h] at hm
    exact h₁ m hm
  · rw [if_neg h] at hm
    exact absurd rfl (h₂ '=' (List.getElem?_mem hm))

/-- The generic pattern has its equals sign at offset 13 only. -/
theorem eqOnlyAt_genPat : eqOnlyAt genPat 13 :=
  eqOnlyAt_bounded _ 14 13 rfl (by decide)

/-- The namespaced pattern string has its equals sign at offset 25 only. -/
theorem eqOnlyAt_nsPatStr : eqOnlyAt nsPat 25 :=
  eqOnlyAt_bounded _ 26 25 rfl (by decide)

/-- The namespaced scan fails on any input whose only equals sign sits
before offset 25. -/
theorem scanMatch_nsPat_none (s : List Char) (i : Nat) (hi : i < 25)
    (hs : eqOnlyAt s i) : scanMatch nsPat s = none := by
  apply scanMatch_eq_none
  intro j rest hm
  have ha := nsPat_anchor _ _ hm
  rw [List.getElem?_drop] at ha
  have := hs _ ha
  omega

/-- The namespaced scan skips a leading region whose only equals sign sits
before offset 25, when the remainder has its only equals sign at offset 25
(the start of a namespaced cookie pair). -/
theorem scanMatch_nsPat_skip (u w : List Char) (iu : Nat) (hiu : iu < 25)
    (hu : eqOnlyAt u iu) (hw : eqOnlyAt w 25) :
    scanMatch nsPat (u ++ w) = scanMatch nsPat w := by
  apply scanMatch_skip
  intro j hj rest hm
  exfalso
  have ha := nsPat_anchor _ _ hm
  rw [List.getElem?_append] at ha
  by_cases h : 25 < (u.drop j).length
  · rw [if_pos h] at ha
    rw [List.getElem?_drop] at ha
    have := hu _ ha
    omega
  · rw [if_neg h] at ha
    have := hw _ ha
    rw [List.length_drop] at h this
    omega

/-- A scan never returns an empty capture. -/
theorem scanMatch_some_ne_nil (pat : List Char) :
    ∀ s cap, scanMatch pat s = some cap → cap ≠ [] := by
  intro s
  induction s with
  | nil => intro cap h; cases h
  | cons c cs ih =>
    intro cap h
    cases hm : matchPatAt pat (c :: cs) with
    | none =>
      simp only [scanMatch, hm] at h
      exact ih cap h
    | some rest =>
      simp only [scanMatch, hm] at h
      by_cases hcap : rest.takeWhile (fun ch => ch != ';') = []
      · rw [if_pos hcap] at h
        exact ih cap h
      · rw [if_neg hcap] at h
        cases h
        exact hcap

/-- A plain value has a non-empty character list. -/
theorem plainVal_data_ne (v : String) (h : plainVal v) : v.data ≠ [] := by
  intro hc
  exact h.1 (String.ext (by rw [hc]))

/-- When the namespaced pattern matches anywhere, its capture is the result,
irrespective of anything else in the header. -/
theorem extract_ns_priority (s : String) (cap : List Char) (hs : s ≠ "")
    (h : scanMatch nsPat s.data = some cap) :
    extractSessionToken s = some (String.mk cap) := by
  unfold extractSessionToken
  rw [if_neg hs, h]

/-- A header holding only a generic session_token pair yields its value. -/
theorem extract_generic_only (X : String) (hX : plainVal X) :
    extractSessionToken ("session_token=" ++ X) = some X := by
  have hdata : ("session_token=" ++ X).data = genPat ++ X.data := String.data_append _ _
  have hXne : X.data ≠ [] := plainVal_data_ne X hX
  have h1 : scanMatch nsPat ("session_token=" ++ X).data = none := by
    rw [hdata]
    exact scanMatch_nsPat_none _ 13 (by omega)
      (eqOnlyAt_append genPat X.data 13 eqOnlyAt_genPat (fun ch hm => (hX.2 ch hm).2))
  have h2 : scanMatch genPat ("session_token=" ++ X).data = some X.data := by
    rw [hdata]
    have hall : X.data.takeWhile (fun ch => ch != ';') = X.data :=
      takeWhile_all X.data (fun ch hm => (hX.2 ch hm).1)
    have := scanMatch_head_match genPat X.data (by decide) (by rw [hall]; exact hXne)
    rw [hall] at this
    exact this
  have hne0 : ("session_token=" ++ X) ≠ "" := by
    apply str_ne_empty
    rw [hdata]
    intro hc
    exact absurd (List.append_eq_nil.mp hc).1 (by decide)
  unfold extractSessionToken
  rw [if_neg hne0, h1, h2]

/-- A header with the namespaced pair first and a generic pair second yields
the namespaced value. -/
theorem extract_both_ns_first (A B : String) (hA : plainVal A) (hB : plainVal B) :
    extractSessionToken ("better-auth.session_token=" ++ B ++ "; session_token=" ++ A) =
      some B := by
  have hdata : ("better-auth.session_token=" ++ B ++ "; session_token=" ++ A).data =
      nsPat ++ (B.data ++ ';' :: (" session_token=".data ++ A.data)) := by
    simp only [String.data_append, List.append_assoc]
    rfl
  have hBne : B.data ≠ [] := plainVal_data_ne B hB
  have hsemi : (B.data ++ ';' :: (" session_token=".data ++ A.data)).takeWhile
      (fun ch => ch != ';') = B.data :=
    takeWhile_semi B.data _ (fun ch hm => (hB.2 ch hm).1)
  have h1 : scanMatch nsPat
      ("better-auth.session_token=" ++ B ++ "; session_token=" ++ A).data =
      some B.data := by
    rw [hdata]
    have := scanMatch_head_match nsPat (B.data ++ ';' :: (" session_token=".data ++ A.data))
      (by decide) (by rw [hsemi]; exact hBne)
    rw [hsemi] at this
    exact this
  have hne0 : ("better-auth.session_token=" ++ B ++ "; session_token=" ++ A) ≠ "" := by
    apply str_ne_empty
    rw [hdata]
    intro hc
    exact absurd (List.append_eq_nil.mp hc).1 (by decide)
  unfold extractSessionToken
  rw [if_neg hne0, h1]

/-- A header with the generic pair first and the namespaced pair second still
yields the namespaced value: the name priority beats the position. -/
theorem extract_both_ns_second (A B : String) (hA : plainVal A) (hB : plainVal B) :
    extractSessionToken ("session_token=" ++ A ++ "; better-auth.session_token=" ++ B) =
      some B := by
  have hdata : ("session_token=" ++ A ++ "; better-auth.session_token=" ++ B).data =
      (genPat ++ (A.data ++ [';', ' '])) ++ (nsPat ++ B.data) := by
    simp only [String.data_append, List.append_assoc]
    rfl
  have hBne : B.data ≠ [] := plainVal_data_ne B hB
  have hu : eqOnlyAt (genPat ++ (A.data ++ [';', ' '])) 13 := by
    refine eqOnlyAt_append genPat _ 13 eqOnlyAt_genPat ?_
    intro ch hm
    rcases List.mem_append.mp hm with hA2 | hsep
    · exact (hA.2 ch hA2).2
    · simp only [List.mem_cons, List.not_mem_nil, or_false] at hsep
      rcases hsep with rfl | rfl <;> decide
  have hw : eqOnlyAt (nsPat ++ B.data) 25 :=
    eqOnlyAt_append nsPat B.data 25 eqOnlyAt_nsPatStr (fun ch hm => (hB.2 ch hm).2)
  have hall : B.data.takeWhile (fun ch => ch != ';') = B.data :=
    takeWhile_all B.data (fun ch hm => (hB.2 ch hm).1)
  have h1 : scanMatch nsPat
      ("session_token=" ++ A ++ "; better-auth.session_token=" ++ B).data =
      some B.data := by
    rw [hdata, scanMatch_nsPat_skip _ _ 13 (by omega) hu hw]
    have := scanMatch_head_match nsPat B.data (by decide) (by rw [hall]; exact hBne)
    rw [hall] at this
    exact this
  have hne0 : ("session_token=" ++ A ++ "; better-auth.session_token=" ++ B) ≠ "" := by
    apply str_ne_empty
    rw [hdata]
    intro hc
    exact absurd (List.append_eq_nil.mp (List.append_eq_nil.mp hc).1).1 (by decide)
  unfold extractSessionToken
  rw [if_neg hne0, h1]

/-- Extraction never returns the empty string: every capture holds at least
one character. -/
theorem extract_some_ne_empty (s v : String) (h : extractSessionToken s = some v) :
    v ≠ "" := by
  unfold extractSessionToken at h
  by_cases hs : s = ""
  · rw [if_pos hs] at h
    cases h
  · rw [if_neg hs] at h
    have mkcase : ∀ cap : List Char, cap ≠ [] → some (String.mk cap) = some v → v ≠ "" := by
      intro cap hne hv
      cases hv
      exact str_ne_empty _ hne
    cases h1 : scanMatch nsPat s.data with
    | some cap =>
      rw [h1] at h
      exact mkcase cap (scanMatch_some_ne_nil nsPat s.data cap h1) h
    | none =>
      rw [h1] at h
      cases h2 : scanMatch genPat s.data with
      | some cap =>
        rw [h2] at h
        exact mkcase cap (scanMatch_some_ne_nil genPat s.data cap h2) h
      | none =>
        rw [h2] at h
        cases h3 : scanMatch barePat s.data with
        | some cap =>
          rw [h3] at h
          exact mkcase cap (scanMatch_some_ne_nil barePat s.data cap h3) h
        | none =>
          rw [h3] at h
          cases h

/-- C4 claim (confirmed): extraction follows the fixed name priority — a
namespaced match anywhere wins outright; a header carrying only a generic
session_token pair yields its value; and for headers carrying both a
namespaced and a generic pair, the namespaced value is returned in either
left-to-right order. -/
theorem C4_extract_priority_order :
    (∀ (s : String) (cap : List Char), s ≠ "" → scanMatch nsPat s.data = some cap →
      extractSessionToken s = some (String.mk cap)) ∧
    (∀ X : String, plainVal X →
      extractSessionToken ("session_token=" ++ X) = some X) ∧
    (∀ A B : String, plainVal A → plainVal B →
      extractSessionToken ("better-auth.session_token=" ++ B ++ "; session_token=" ++ A) =
        some B) ∧
    (∀ A B : String, plainVal A → plainVal B →
      extractSessionToken ("session_token=" ++ A ++ "; better-auth.session_token=" ++ B) =
        some B) :=
  ⟨extract_ns_priority, extract_generic_only, extract_both_ns_first, extract_both_ns_second⟩

/-- Witness for C4 at concrete headers, in both orders and generic-only. -/
theorem C4_extract_priority_order_witness :
    extractSessionToken ("session_token=" ++ "xyz789") = some "xyz789" ∧
    extractSessionToken ("better-auth.session_token=" ++ "first" ++ "; session_token=" ++
      "second") = some "first" ∧
    extractSessionToken ("session_token=" ++ "second" ++ "; better-auth.session_token=" ++
      "first") = some "first" :=
  ⟨C4_extract_priority_order.2.1 "xyz789" ⟨by decide, by decide⟩,
   C4_extract_priority_order.2.2.1 "second" "first" ⟨by decide, by decide⟩
     ⟨by decide, by decide⟩,
   C4_extract_priority_order.2.2.2 "second" "first" ⟨by decide, by decide⟩
     ⟨by decide, by decide⟩⟩

/-- Counterexample to C9 as stated: the value captured for session_token in
this header is the single space, which is empty after trimming, yet it is
returned as the token instead of being rejected in favour of the later
session cookie. -/
theorem C9_no_trimming_counterexample :
    extractSessionToken "session_token= ; session=abc" = some " " ∧
    (∀ ch ∈ (" " : String).data, ch = ' ') ∧
    extractSessionToken "session_token= ; session=abc" ≠ some "abc" := by
  refine ⟨by decide, by decide, by decide⟩

/-- C9 claim, amended (corrected): a candidate name matches only where its
value captures at least one character before the next semicolon — but no
trimming is applied, so a whitespace-only capture is accepted verbatim; an
occurrence with an empty value does not match, and scanning proceeds to
later occurrences of the same name and then to the remaining names; the
extractor never throws, returning absent for an empty header and when no
name matches anywhere. -/
theorem C9_nonempty_capture_no_throw :
    (∀ s v, extractSessionToken s = some v → v ≠ "") ∧
    extractSessionToken "" = none ∧
    extractSessionToken "other_cookie=value; another=test" = none ∧
    extractSessionToken "session_token=; session_token=abc" = some "abc" ∧
    extractSessionToken "session_token=; session=xyz" = some "xyz" :=
  ⟨extract_some_ne_empty, rfl, by decide, by decide, by decide⟩

/-- Witness for C9: the non-empty-capture guarantee applied at a concrete
header. -/
theorem C9_nonempty_capture_no_throw_witness :
    extractSessionToken "session=q" = some "q" ∧ ("q" : String) ≠ "" :=
  ⟨by decide, C9_nonempty_capture_no_throw.1 "session=q" "q" (by decide)⟩

/-- Removing one key leaves lookups of other keys unchanged. -/
theorem lookupKey_removeKey_ne (l : List (String × CacheEntry)) (k k2 : String)
    (hne : k2 ≠ k) : lookupKey (removeKey l k) k2 = lookupKey l k2 := by
  induction l with
  | nil => rfl
  | cons p l ih =>
    by_cases hp : p.1 = k
    · have hp2 : p.1 ≠ k2 := by rw [hp]; exact fun hh => hne hh.symm
      simp only [removeKey, if_pos hp, lookupKey, if_neg hp2]
      exact ih
    · by_cases hp2 : p.1 = k2
      · simp only [removeKey, if_neg hp, lookupKey, if_pos hp2]
      · simp only [removeKey, if_neg hp, lookupKey, if_neg hp2]
        exact ih

/-- Removing an absent key changes nothing. -/
theorem removeKey_not_mem (l : List (String × CacheEntry)) (k : String)
    (h : ∀ p ∈ l, p.1 ≠ k) : removeKey l k = l := by
  induction l with
  | nil => rfl
  | cons p l ih =>
    simp only [removeKey, if_neg (h p (List.mem_cons_self p l))]
    rw [ih (fun q hq => h q (List.mem_cons_of_mem p hq))]

/-- An entry with a different key survives the removal. -/
theorem mem_removeKey (l : List (String × CacheEntry)) (k : String)
    (q : String × CacheEntry) (hq : q ∈ l) (hne : q.1 ≠ k) : q ∈ removeKey l k := by
  induction l with
  | nil => cases hq
  | cons p l ih =>
    rcases List.mem_cons.mp hq with rfl | hq2
    · simp only [removeKey, if_neg hne]
      exact List.mem_cons_self q _
    · by_cases hp : p.1 = k
      · simp only [removeKey, if_pos hp]
        exact ih hq2
      · simp only [removeKey, if_neg hp]
        exact List.mem_cons_of_mem p (ih hq2)

/-- Everything surviving the removal was in the list. -/
theorem removeKey_subset (l : List (String × CacheEntry)) (k : String)
    (q : String × CacheEntry) (hq : q ∈ removeKey l k) : q ∈ l := by
  induction l with
  | nil => cases hq
  | cons p l ih =>
    by_cases hp : p.1 = k
    · simp only [removeKey, if_pos hp] at hq
      exact List.mem_cons_of_mem p (ih hq)
    · simp only [removeKey, if_neg hp] at hq
      rcases List.mem_cons.mp hq with rfl | hq2
      · exact List.mem_cons_self q l
      · exact List.mem_cons_of_mem p (ih hq2)

/-- Lookup in a constant-entry map list finds the key when present. -/
theorem lookupKey_map_mem (l : List String) (k : String) (e0 : CacheEntry)
    (h : k ∈ l) :
    lookupKey (l.map (fun tk => (tk, e0))) k = some (k, e0) := by
  induction l with
  | nil => cases h
  | cons a l ih =>
    by_cases ha : a = k
    · subst ha
      simp [lookupKey]
    · simp only [List.map_cons, lookupKey, if_neg ha]
      exact ih (by rcases List.mem_cons.mp h with rfl | h2; exact absurd rfl ha; exact h2)

/-- First components of a constant-entry map list are the original keys. -/
theorem map_fst_map_entries (l : List String) (e0 : CacheEntry) :
    (l.map (fun tk => (tk, e0))).map Prod.fst = l := by
  induction l with
  | nil => rfl
  | cons a l ih => simp [ih]

/-- Keys of a constant-entry map list come from the original list. -/
theorem mem_map_entries (l : List String) (e0 : CacheEntry)
    (p : String × CacheEntry) (hp : p ∈ l.map (fun tk => (tk, e0))) : p.1 ∈ l := by
  obtain ⟨tk, htk, rfl⟩ := List.mem_map.mp hp
  exact htk

/-- The get operation preserves the capacity and the time-to-live. -/
theorem get_max_ttl (c : SessionCache) (k : String) (now : Nat) :
    ((c.get k now).2).max = c.max ∧ ((c.get k now).2).ttlMs = c.ttlMs := by
  unfold SessionCache.get
  split
  · exact ⟨rfl, rfl⟩
  · split
    · exact ⟨rfl, rfl⟩
    · exact ⟨rfl, rfl⟩

/-- A set on a cache with room and a fresh key simply pushes the new entry. -/
theorem set_fresh (c : SessionCache) (k : String) (v : AuthContext) (now : Nat)
    (hk : ∀ p ∈ c.entries, p.1 ≠ k) (hlen : c.entries.length < c.max) :
    (c.set k v now).entries = (k, ⟨v, now⟩) :: c.entries := by
  unfold SessionCache.set
  rw [removeKey_not_mem c.entries k hk]
  simp only [if_neg (by omega : ¬ c.max ≤ c.entries.length)]

/-- Filling an empty-enough cache with distinct fresh tokens stacks them in
reverse insertion order, without any eviction. -/
theorem setAll_fresh (v : AuthContext) (now : Nat) :
    ∀ (ts : List String) (c : SessionCache), ts.Nodup →
      (∀ t ∈ ts, ∀ p ∈ c.entries, p.1 ≠ t) →
      c.entries.length + ts.length ≤ c.max →
      (setAll c ts v now).entries =
        ts.reverse.map (fun tk => (tk, (⟨v, now⟩ : CacheEntry))) ++ c.entries ∧
      (setAll c ts v now).max = c.max ∧ (setAll c ts v now).ttlMs = c.ttlMs := by
  intro ts
  induction ts with
  | nil => exact fun c _ _ _ => ⟨rfl, rfl, rfl⟩
  | cons h tl ih =>
    intro c hnd hfresh hlen
    have hset : (c.set h v now).entries = (h, ⟨v, now⟩) :: c.entries :=
      set_fresh c h v now (fun p hp => hfresh h (List.mem_cons_self h tl) p hp)
        (by simp at hlen; omega)
    have hmax : (c.set h v now).max = c.max := rfl
    have httl : (c.set h v now).ttlMs = c.ttlMs := rfl
    have hfresh2 : ∀ t ∈ tl, ∀ p ∈ (c.set h v now).entries, p.1 ≠ t := by
      intro t ht p hp
      rw [hset] at hp
      rcases List.mem_cons.mp hp with rfl | hp2
      · intro hc
        have hht : h = t := hc
        exact (List.nodup_cons.mp hnd).1 (hht ▸ ht)
      · exact hfresh t (List.mem_cons_of_mem h ht) p hp2
    have hlen2 : (c.set h v now).entries.length + tl.length ≤ (c.set h v now).max := by
      rw [hset, hmax]
      simp at hlen ⊢
      omega
    obtain ⟨he, hm, ht⟩ :=
      ih (c.set h v now) (List.Nodup.of_cons hnd) hfresh2 hlen2
    refine ⟨?_, ?_, ?_⟩
    · show (setAll (c.set h v now) tl v now).entries = _
      rw [he, hset, List.reverse_cons, List.map_append]
      simp [List.append_assoc]
    · show (setAll (c.set h v now) tl v now).max = c.max
      rw [hm, hmax]
    · show (setAll (c.set h v now) tl v now).ttlMs = c.ttlMs
      rw [ht, httl]

/-- C3 claim (confirmed, cache modelled from the spec): a get strictly before
the entry's age reaches the time-to-live returns the stored context, moves
the entry to the most recent position, and preserves every entry's recorded
insertion time — so the absolute expiry is never extended, no matter how
many successful gets have occurred; and a get or has at or past the
time-to-live behaves exactly like a miss. -/
theorem C3_get_refreshes_recency_not_expiry (c : SessionCache) (k : String)
    (p : String × CacheEntry) (now : Nat)
    (hfind : lookupKey c.entries k = some p) :
    (now < p.2.start + c.ttlMs →
      (c.get k now).1 = some p.2.ctx ∧
      ((c.get k now).2).entries.head? = some (k, p.2) ∧
      (∀ k2, startOf ((c.get k now).2) k2 = startOf c k2)) ∧
    (p.2.start + c.ttlMs ≤ now →
      (c.get k now).1 = none ∧ c.has k now = false) := by
  constructor
  · intro hlt
    have hget : c.get k now =
        (some p.2.ctx, { c with entries := (k, p.2) :: removeKey c.entries k }) := by
      unfold SessionCache.get
      rw [hfind]
      exact if_pos hlt
    refine ⟨by rw [hget], by rw [hget]; rfl, ?_⟩
    intro k2
    rw [hget]
    unfold startOf
    by_cases hk : k2 = k
    · subst hk
      simp only [lookupKey, if_pos rfl, hfind]
      rfl
    · simp only [lookupKey, if_neg (fun hh : k = k2 => hk hh.symm)]
      rw [lookupKey_removeKey_ne c.entries k k2 hk]
  · intro hge
    have hget : c.get k now = (none, { c with entries := removeKey c.entries k }) := by
      unfold SessionCache.get
      rw [hfind]
      exact if_neg (by omega)
    refine ⟨by rw [hget], ?_⟩
    unfold SessionCache.has
    rw [hfind]
    exact decide_eq_false (by omega)

/-- Witness for C3 at the concrete cache c3cache: a fresh get at time 500
hits and keeps the insertion time 0, and at the time-to-live boundary 1000
both get and has miss. -/
theorem C3_get_refreshes_recency_not_expiry_witness :
    (c3cache.get "a" 500).1 = some ctxW ∧
    startOf ((c3cache.get "a" 500).2) "a" = startOf c3cache "a" ∧
    (c3cache.get "a" 1000).1 = none ∧
    c3cache.has "a" 1000 = false := by
  have h1 := C3_get_refreshes_recency_not_expiry c3cache "a" ("a", ⟨ctxW, 0⟩) 500
    (by decide)
  have h2 := C3_get_refreshes_recency_not_expiry c3cache "a" ("a", ⟨ctxW, 0⟩) 1000
    (by decide)
  obtain ⟨ha, _, hc⟩ := h1.1 (by decide)
  obtain ⟨hd, he⟩ := h2.2 (by decide)
  exact ⟨ha, hc "a", hd, he⟩

/-- An entry at the head of the cache survives a set of a fresh key: the
eviction, when it happens, removes the last element only. -/
theorem mem_keys_set_of_head (c : SessionCache) (ti : String) (e : CacheEntry)
    (R : List (String × CacheEntry)) (hent : c.entries = (ti, e) :: R) (hR : R ≠ [])
    (tNew : String) (v : AuthContext) (now3 : Nat)
    (hfresh : ∀ p ∈ c.entries, p.1 ≠ tNew) :
    ti ∈ (c.set tNew v now3).keys := by
  have hrest : removeKey c.entries tNew = (ti, e) :: R := by
    rw [removeKey_not_mem c.entries tNew hfresh, hent]
  obtain ⟨r, R2, rfl⟩ := List.exists_cons_of_ne_nil hR
  have hentries : (c.set tNew v now3).entries =
      (tNew, ⟨v, now3⟩) ::
        (if c.max ≤ ((ti, e) :: r :: R2).length then ((ti, e) :: r :: R2).dropLast
         else ((ti, e) :: r :: R2)) := by
    unfold SessionCache.set
    rw [hrest]
  unfold SessionCache.keys
  rw [hentries]
  by_cases hcap : c.max ≤ ((ti, e) :: r :: R2).length
  · rw [if_pos hcap, List.dropLast_cons₂]
    simp
  · rw [if_neg hcap]
    simp

/-- C5 claim, amended (corrected): filling a cache of capacity N with N
distinct tokens and inserting one more evicts exactly the first-inserted
(least-recently-touched) token and keeps all others plus the new one; and
performing a get on a resident entry before the overflow insert exempts it
from eviction whenever the capacity is at least two. For a capacity-one
cache the exemption clause of the original claim fails: the sole entry is
evicted even when it was just touched. -/
theorem C5_lru_eviction_and_exemption (ttlMs : Nat) (h : String) (tl : List String)
    (v : AuthContext) (now : Nat) (tNew : String)
    (hnd : (h :: tl).Nodup) (hNew : tNew ∉ h :: tl) :
    (((setAll (SessionCache.mkEmpty (h :: tl).length ttlMs) (h :: tl) v now).set
        tNew v now).keys = tNew :: tl.reverse ∧
      h ∉ ((setAll (SessionCache.mkEmpty (h :: tl).length ttlMs) (h :: tl) v now).set
        tNew v now).keys ∧
      ∀ t ∈ tl, t ∈ ((setAll (SessionCache.mkEmpty (h :: tl).length ttlMs) (h :: tl) v
        now).set tNew v now).keys) ∧
    (∀ ti ∈ h :: tl, tl ≠ [] → ∀ now2 now3, now2 < now + ttlMs →
      ti ∈ (((setAll (SessionCache.mkEmpty (h :: tl).length ttlMs) (h :: tl) v
        now).get ti now2).2.set tNew v now3).keys) := by
  obtain ⟨hent0, hmax0, httl0⟩ := setAll_fresh v now (h :: tl)
    (SessionCache.mkEmpty (h :: tl).length ttlMs) hnd (by intro t ht p hp; cases hp)
    (by simp [SessionCache.mkEmpty])
  have hent : (setAll (SessionCache.mkEmpty (h :: tl).length ttlMs) (h :: tl) v
      now).entries = (h :: tl).reverse.map (fun tk => (tk, (⟨v, now⟩ : CacheEntry))) := by
    rw [hent0]
    simp [SessionCache.mkEmpty]
  have hmax : (setAll (SessionCache.mkEmpty (h :: tl).length ttlMs) (h :: tl) v
      now).max = (h :: tl).length := by rw [hmax0]; rfl
  have httl : (setAll (SessionCache.mkEmpty (h :: tl).length ttlMs) (h :: tl) v
      now).ttlMs = ttlMs := by rw [httl0]; rfl
  have hentries : (setAll (SessionCache.mkEmpty (h :: tl).length ttlMs) (h :: tl) v
      now).entries =
      tl.reverse.map (fun tk => (tk, (⟨v, now⟩ : CacheEntry))) ++
        [(h, (⟨v, now⟩ : CacheEntry))] := by
    rw [hent, List.reverse_cons, List.map_append]
    rfl
  have hkeysrc : ∀ p ∈ (setAll (SessionCache.mkEmpty (h :: tl).length ttlMs) (h :: tl) v
      now).entries, p.1 ∈ h :: tl := by
    intro p hp
    rw [hent] at hp
    exact List.mem_reverse.mp (mem_map_entries _ _ p hp)
  have hfreshNew : ∀ p ∈ (setAll (SessionCache.mkEmpty (h :: tl).length ttlMs)
      (h :: tl) v now).entries, p.1 ≠ tNew := by
    intro p hp hc
    exact hNew (hc ▸ hkeysrc p hp)
  constructor
  · have hlen : (setAll (SessionCache.mkEmpty (h :: tl).length ttlMs) (h :: tl) v
        now).entries.length = (h :: tl).length := by
      rw [hent]
      simp
    have hset : ((setAll (SessionCache.mkEmpty (h :: tl).length ttlMs) (h :: tl) v
        now).set tNew v now).entries =
        (tNew, (⟨v, now⟩ : CacheEntry)) ::
          tl.reverse.map (fun tk => (tk, (⟨v, now⟩ : CacheEntry))) := by
      unfold SessionCache.set
      rw [removeKey_not_mem _ tNew hfreshNew]
      rw [if_pos (by rw [hlen, hmax])]
      rw [hentries, List.dropLast_concat]
    have hkeys : ((setAll (SessionCache.mkEmpty (h :: tl).length ttlMs) (h :: tl) v
        now).set tNew v now).keys = tNew :: tl.reverse := by
      unfold SessionCache.keys
      rw [hset, List.map_cons, map_fst_map_entries]
    refine ⟨hkeys, ?_, ?_⟩
    · rw [hkeys]
      intro hmem
      rcases List.mem_cons.mp hmem with rfl | hmem2
      · exact hNew (List.mem_cons_self _ _)
      · exact (List.nodup_cons.mp hnd).1 (List.mem_reverse.mp hmem2)
    · intro t ht
      rw [hkeys]
      exact List.mem_cons_of_mem _ (List.mem_reverse.mpr ht)
  · intro ti hti htl now2 now3 hfreshTime
    have hlook : lookupKey (setAll (SessionCache.mkEmpty (h :: tl).length ttlMs)
        (h :: tl) v now).entries ti = some (ti, ⟨v, now⟩) := by
      rw [hent]
      exact lookupKey_map_mem _ ti _ (List.mem_reverse.mpr hti)
    have hcond : now2 < (⟨v, now⟩ : CacheEntry).start +
        (setAll (SessionCache.mkEmpty (h :: tl).length ttlMs) (h :: tl) v now).ttlMs := by
      rw [httl]
      exact hfreshTime
    have hget : (setAll (SessionCache.mkEmpty (h :: tl).length ttlMs) (h :: tl) v
        now).get ti now2 =
        (some v,
          { (setAll (SessionCache.mkEmpty (h :: tl).length ttlMs) (h :: tl) v now) with
            entries := (ti, (⟨v, now⟩ : CacheEntry)) ::
              removeKey (setAll (SessionCache.mkEmpty (h :: tl).length ttlMs) (h :: tl) v
                now).entries ti }) := by
      unfold SessionCache.get
      rw [hlook]
      exact if_pos hcond
    have hqother : ∃ q, q ∈ (setAll (SessionCache.mkEmpty (h :: tl).length ttlMs)
        (h :: tl) v now).entries ∧ q.1 ≠ ti := by
      obtain ⟨t0, tl2, rfl⟩ := List.exists_cons_of_ne_nil htl
      by_cases hih : ti = h
      · refine ⟨(t0, ⟨v, now⟩), ?_, ?_⟩
        · rw [hent]
          exact List.mem_map.mpr ⟨t0, List.mem_reverse.mpr
            (List.mem_cons_of_mem h (List.mem_cons_self t0 tl2)), rfl⟩
        · intro hc
          have ht0 : t0 = ti := hc
          rw [hih] at ht0
          exact (List.nodup_cons.mp hnd).1 (ht0 ▸ List.mem_cons_self t0 tl2)
      · refine ⟨(h, ⟨v, now⟩), ?_, ?_⟩
        · rw [hent]
          exact List.mem_map.mpr ⟨h, List.mem_reverse.mpr (List.mem_cons_self h _), rfl⟩
        · intro hc
          exact hih ((show h = ti from hc).symm)
    obtain ⟨q, hqmem, hqne⟩ := hqother
    have hRne : removeKey (setAll (SessionCache.mkEmpty (h :: tl).length ttlMs)
        (h :: tl) v now).entries ti ≠ [] :=
      List.ne_nil_of_mem (mem_removeKey _ ti q hqmem hqne)
    have hfreshNew2 : ∀ p ∈ ((setAll (SessionCache.mkEmpty (h :: tl).length ttlMs)
        (h :: tl) v now).get ti now2).2.entries, p.1 ≠ tNew := by
      rw [hget]
      intro p hp
      rcases List.mem_cons.mp hp with rfl | hp2
      · intro hc
        exact hNew ((show ti = tNew from hc) ▸ hti)
      · exact hfreshNew p (removeKey_subset _ ti p hp2)
    exact mem_keys_set_of_head _ ti ⟨v, now⟩ _ (by rw [hget]) hRne tNew v now3 hfreshNew2

/-- Counterexample to C5 as stated: in a capacity-one cache, the single token
a is touched by a successful get right before the overflow insert, yet it is
evicted all the same — the exemption clause cannot hold at capacity one. -/
theorem C5_capacity_one_counterexample :
    ((((SessionCache.mkEmpty 1 1000).set "a" ctxW 0).get "a" 10).1 = some ctxW) ∧
    ((((SessionCache.mkEmpty 1 1000).set "a" ctxW 0).get "a" 10).2.set "b" ctxW
      20).keys = ["b"] ∧
    "a" ∉ ((((SessionCache.mkEmpty 1 1000).set "a" ctxW 0).get "a" 10).2.set "b" ctxW
      20).keys := by
  refine ⟨by decide, by decide, by decide⟩

/-- Witness for C5 at concrete tokens: capacity two, tokens a then b, then c
inserted; without a get the first token a is evicted; after a get on a, a is
exempt and survives the overflow insert. -/
theorem C5_lru_eviction_and_exemption_witness :
    (((setAll (SessionCache.mkEmpty (["a", "b"] : List String).length 1000)
        ["a", "b"] ctxW 0).set "c" ctxW 0).keys = ["c", "b"] ∧
      "a" ∉ ((setAll (SessionCache.mkEmpty (["a", "b"] : List String).length 1000)
        ["a", "b"] ctxW 0).set "c" ctxW 0).keys ∧
      ∀ t ∈ (["b"] : List String),
        t ∈ ((setAll (SessionCache.mkEmpty (["a", "b"] : List String).length 1000)
          ["a", "b"] ctxW 0).set "c" ctxW 0).keys) ∧
    (∀ ti ∈ ("a" :: ["b"] : List String), (["b"] : List String) ≠ [] →
      ∀ now2 now3, now2 < 0 + 1000 →
      ti ∈ (((setAll (SessionCache.mkEmpty (("a" :: ["b"] : List String)).length 1000)
        ("a" :: ["b"]) ctxW 0).get ti now2).2.set "c" ctxW now3).keys) :=
  C5_lru_eviction_and_exemption 1000 "a" ["b"] ctxW 0 "c" (by decide) (by decide)

/-- Lookup finds an entry sitting at the head of the list. -/
theorem lookupKey_cons_self (k : String) (e : CacheEntry)
    (l : List (String × CacheEntry)) :
    lookupKey ((k, e) :: l) k = some (k, e) := by
  show (if (k, e).1 = k then some (k, e) else lookupKey l k) = some (k, e)
  rw [if_pos rfl]

/-- A successful remote resolution produces a success result with one remote
call, a run continuation, and exactly the resolved user and session injected. -/
theorem remoteTry_inl (tok : String) (resolver : Except ThrownError BetterAuthSessionResponse)
    (cacheOpt : Option SessionCache) (t : Times) (r : RunResult)
    (h : remoteTry tok resolver cacheOpt t = Sum.inl r) :
    r.outcome = Outcome.success ∧ r.nextCalled = true ∧ r.remoteCalls = 1 ∧
    ∃ u s, r.injected = [Injected.user u, Injected.session s] := by
  rcases resolver with e | ⟨data, error⟩
  · exact absurd h (by simp [remoteTry])
  · rcases error with _ | err
    · rcases data with _ | ⟨du, ds⟩
      · exact absurd h (by simp [remoteTry])
      · rcases ds with _ | s
        · exact absurd h (by simp [remoteTry])
        · rcases du with _ | u
          · exact absurd h (by simp [remoteTry])
          · simp only [remoteTry, Sum.inl.injEq] at h
            subst h
            exact ⟨rfl, rfl, rfl, u, s, rfl⟩
    · exact absurd h (by simp [remoteTry])

/-- Every remote resolution ends in a success carrying one remote call or in
a thrown error carrying the untouched cache and one remote call. -/
theorem remoteTry_cases (tok : String) (resolver : Except ThrownError BetterAuthSessionResponse)
    (cacheOpt : Option SessionCache) (t : Times) :
    (∃ r, remoteTry tok resolver cacheOpt t = Sum.inl r ∧ r.remoteCalls = 1) ∨
    (∃ e, remoteTry tok resolver cacheOpt t = Sum.inr (e, cacheOpt, 1)) := by
  rcases resolver with e | ⟨data, error⟩
  · exact Or.inr ⟨e, rfl⟩
  · rcases error with _ | err
    · rcases data with _ | ⟨du, ds⟩
      · exact Or.inr ⟨_, rfl⟩
      · rcases ds with _ | s
        · exact Or.inr ⟨_, rfl⟩
        · rcases du with _ | u
          · exact Or.inr ⟨_, rfl⟩
          · exact Or.inl ⟨_, rfl, rfl⟩
    · exact Or.inr ⟨_, rfl⟩

/-- A run body that completes without throwing has run the continuation and
signalled success by the absence of a terminal response. -/
theorem runTry_inl (req : Headers) (resolver : Except ThrownError BetterAuthSessionResponse)
    (cache0 : Option SessionCache) (t : Times) (r : RunResult)
    (h : runTry req resolver cache0 t = Sum.inl r) :
    r.outcome = Outcome.success ∧ r.nextCalled = true := by
  cases cache0 with
  | none =>
    cases hex : extractSessionToken ((truthyS req.cookie).getD "") with
    | none =>
      simp only [runTry, hex] at h
      exact Sum.noConfusion h
    | some tok =>
      simp only [runTry, hex] at h
      obtain ⟨h1, h2, _, _⟩ := remoteTry_inl _ _ _ _ r h
      exact ⟨h1, h2⟩
  | some c =>
    cases hex : extractSessionToken ((truthyS req.cookie).getD "") with
    | none =>
      simp only [runTry, hex] at h
      exact Sum.noConfusion h
    | some tok =>
      simp only [runTry, hex] at h
      by_cases hhas : c.has tok t.tHas = true
      · rw [if_pos hhas] at h
        rcases hget : c.get tok t.tGet with ⟨g, c2⟩
        rw [hget] at h
        cases g with
        | some ctx =>
          simp only [Sum.inl.injEq] at h
          subst h
          exact ⟨rfl, rfl⟩
        | none =>
          obtain ⟨h1, h2, _, _⟩ := remoteTry_inl _ _ _ _ r h
          exact ⟨h1, h2⟩
      · rw [if_neg hhas] at h
        obtain ⟨h1, h2, _, _⟩ := remoteTry_inl _ _ _ _ r h
        exact ⟨h1, h2⟩

/-- A thrown error turns the whole run into the catch clause. -/
theorem runMiddleware_eq_failWith (onError : Option (ThrownError → Except String AuthResponse))
    (req : Headers) (resolver : Except ThrownError BetterAuthSessionResponse)
    (cache0 : Option SessionCache) (t : Times) (e : ThrownError)
    (cOpt : Option SessionCache) (n : Nat)
    (h : runTry req resolver cache0 t = Sum.inr (e, cOpt, n)) :
    runMiddleware onError req resolver cache0 t = failWith onError e cOpt n := by
  unfold runMiddleware
  rw [h]

/-- The catch clause without a hook always returns the classifier response. -/
theorem failWith_none_eq (e : ThrownError) (cOpt : Option SessionCache) (n : Nat) :
    failWith none e cOpt n =
      ⟨Outcome.response (createErrorResponse e), n, [], false, cOpt⟩ := rfl

/-- The catch clause never injects context values and passes the cache state
through unchanged, with or without a hook. -/
theorem failWith_injected_cache (onError : Option (ThrownError → Except String AuthResponse))
    (e : ThrownError) (cOpt : Option SessionCache) (n : Nat) :
    (failWith onError e cOpt n).injected = [] ∧
    (failWith onError e cOpt n).cacheAfter = cOpt ∧
    (failWith onError e cOpt n).remoteCalls = n := by
  unfold failWith
  rcases onError with _ | hook
  · exact ⟨rfl, rfl, rfl⟩
  · rcases hk : hook e with r2 | m <;> simp [hk]

/-- C6 claim (confirmed): an error-free remote response lacking the user,
the session, or both makes the orchestrator fail with the invalid session
response condition, and the catch clause neither writes the resolved cache
nor injects anything — a resolved context reaches the cache and the caller
context only when both parts are present. -/
theorem C6_invalid_structure_fails (hook : Option (ThrownError → Except String AuthResponse))
    (tok : String) (resp : BetterAuthSessionResponse)
    (cacheOpt : Option SessionCache) (t : Times)
    (herr : resp.error = none)
    (hlack : resp.data = none ∨
      ∃ d, resp.data = some d ∧ (d.user = none ∨ d.session = none)) :
    remoteTry tok (Except.ok resp) cacheOpt t =
      Sum.inr (ThrownError.jsError "Invalid session response", cacheOpt, 1) ∧
    (failWith hook (ThrownError.jsError "Invalid session response") cacheOpt 1).injected =
      [] ∧
    (failWith hook (ThrownError.jsError "Invalid session response") cacheOpt 1).cacheAfter =
      cacheOpt := by
  refine ⟨?_, (failWith_injected_cache hook _ cacheOpt 1).1,
    (failWith_injected_cache hook _ cacheOpt 1).2.1⟩
  obtain ⟨data, error⟩ := resp
  cases herr
  rcases hlack with hd | ⟨d, hd, hl⟩
  · cases hd
    rfl
  · cases hd
    obtain ⟨du, ds⟩ := d
    rcases hl with hu | hs
    · cases hu
      rcases ds with _ | s <;> rfl
    · cases hs
      rfl

/-- Witness for C6 at a concrete response carrying a user but no session. -/
theorem C6_invalid_structure_fails_witness :
    remoteTry "tok" (Except.ok ⟨some ⟨some ⟨"u1", "e", none⟩, none⟩, none⟩) none ⟨0, 0, 0⟩ =
      Sum.inr (ThrownError.jsError "Invalid session response", none, 1) ∧
    (failWith none (ThrownError.jsError "Invalid session response") none 1).injected = [] ∧
    (failWith none (ThrownError.jsError "Invalid session response") none 1).cacheAfter =
      none :=
  C6_invalid_structure_fails none "tok" ⟨some ⟨some ⟨"u1", "e", none⟩, none⟩, none⟩ none
    ⟨0, 0, 0⟩ rfl (Or.inr ⟨⟨some ⟨"u1", "e", none⟩, none⟩, rfl, Or.inr rfl⟩)

/-- C7 claim (confirmed): without a hook the middleware never lets an
exception escape — every failing run returns the classifier response; with
a hook, a failing run returns exactly the hook's result, and a hook that
throws makes that exception propagate uncaught. -/
theorem C7_hook_result_and_no_escape (req : Headers)
    (resolver : Except ThrownError BetterAuthSessionResponse)
    (cache0 : Option SessionCache) (t : Times) :
    (∀ m, (runMiddleware none req resolver cache0 t).outcome ≠ Outcome.raised m) ∧
    (∀ hook : ThrownError → Except String AuthResponse,
      (runMiddleware (some hook) req resolver cache0 t).outcome = Outcome.success ∨
      ∃ e cOpt n, runTry req resolver cache0 t = Sum.inr (e, cOpt, n) ∧
        runMiddleware (some hook) req resolver cache0 t = failWith (some hook) e cOpt n ∧
        (∀ r2, hook e = Except.ok r2 →
          (runMiddleware (some hook) req resolver cache0 t).outcome =
            Outcome.response r2) ∧
        (∀ m, hook e = Except.error m →
          (runMiddleware (some hook) req resolver cache0 t).outcome =
            Outcome.raised m) ∧
        (runMiddleware none req resolver cache0 t).outcome =
          Outcome.response (createErrorResponse e)) := by
  constructor
  · intro m
    cases hrt : runTry req resolver cache0 t with
    | inl r =>
      have : runMiddleware none req resolver cache0 t = r := by
        unfold runMiddleware
        rw [hrt]
      rw [this, (runTry_inl _ _ _ _ r hrt).1]
      exact fun hc => Outcome.noConfusion hc
    | inr p =>
      obtain ⟨e, cOpt, n⟩ := p
      rw [runMiddleware_eq_failWith none _ _ _ _ e cOpt n hrt, failWith_none_eq]
      exact fun hc => Outcome.noConfusion hc
  · intro hook
    cases hrt : runTry req resolver cache0 t with
    | inl r =>
      left
      have : runMiddleware (some hook) req resolver cache0 t = r := by
        unfold runMiddleware
        rw [hrt]
      rw [this]
      exact (runTry_inl _ _ _ _ r hrt).1
    | inr p =>
      obtain ⟨e, cOpt, n⟩ := p
      right
      have hmw := runMiddleware_eq_failWith (some hook) _ _ _ _ e cOpt n hrt
      refine ⟨e, cOpt, n, rfl, hmw, ?_, ?_, ?_⟩
      · intro r2 hk
        rw [hmw]
        simp only [failWith]
        rw [hk]
      · intro m hk
        rw [hmw]
        simp only [failWith]
        rw [hk]
      · rw [runMiddleware_eq_failWith none _ _ _ _ e cOpt n hrt, failWith_none_eq]

/-- C8 claim (confirmed): after a first successful remote authentication
stores the resolved context, a second invocation with the same token while
the entry is unexpired performs zero remote calls (whatever the resolver
would answer), injects exactly the same user and session values, runs the
continuation, and signals success by returning no terminal response. -/
theorem C8_warm_cache_idempotent
    (hook hook2 : Option (ThrownError → Except String AuthResponse)) (req : Headers)
    (resolver2 : Except ThrownError BetterAuthSessionResponse)
    (cache0 : SessionCache) (t1 t2 : Times) (tok : String)
    (u : BetterAuthUser) (s : BetterAuthSession)
    (hex : extractSessionToken ((truthyS req.cookie).getD "") = some tok)
    (hcold : cache0.has tok t1.tHas = false)
    (hfresh1 : t2.tHas < t1.tSet + cache0.ttlMs)
    (hfresh2 : t2.tGet < t1.tSet + cache0.ttlMs) :
    runMiddleware hook req (Except.ok ⟨some ⟨some u, some s⟩, none⟩) (some cache0) t1 =
      ⟨Outcome.success, 1, [Injected.user u, Injected.session s], true,
        some (cache0.set tok ⟨u, s⟩ t1.tSet)⟩ ∧
    (runMiddleware hook2 req resolver2 (some (cache0.set tok ⟨u, s⟩ t1.tSet)) t2).outcome =
      Outcome.success ∧
    (runMiddleware hook2 req resolver2 (some (cache0.set tok ⟨u, s⟩
      t1.tSet)) t2).remoteCalls = 0 ∧
    (runMiddleware hook2 req resolver2 (some (cache0.set tok ⟨u, s⟩ t1.tSet)) t2).injected =
      (runMiddleware hook req (Except.ok ⟨some ⟨some u, some s⟩, none⟩) (some cache0)
        t1).injected ∧
    (runMiddleware hook2 req resolver2 (some (cache0.set tok ⟨u, s⟩
      t1.tSet)) t2).nextCalled = true := by
  have hnothas : ¬ (cache0.has tok t1.tHas = true) := by
    rw [hcold]
    exact Bool.false_ne_true
  have hr1 : runMiddleware hook req (Except.ok ⟨some ⟨some u, some s⟩, none⟩)
      (some cache0) t1 =
      ⟨Outcome.success, 1, [Injected.user u, Injected.session s], true,
        some (cache0.set tok ⟨u, s⟩ t1.tSet)⟩ := by
    unfold runMiddleware
    simp only [runTry, hex]
    rw [if_neg hnothas]
    rfl
  have hlk : lookupKey (cache0.set tok ⟨u, s⟩ t1.tSet).entries tok =
      some (tok, ⟨⟨u, s⟩, t1.tSet⟩) :=
    lookupKey_cons_self tok ⟨⟨u, s⟩, t1.tSet⟩ _
  have hhas2 : (cache0.set tok ⟨u, s⟩ t1.tSet).has tok t2.tHas = true := by
    unfold SessionCache.has
    rw [hlk]
    exact decide_eq_true hfresh1
  have hget2 : (cache0.set tok ⟨u, s⟩ t1.tSet).get tok t2.tGet =
      (some ⟨u, s⟩,
        { (cache0.set tok ⟨u, s⟩ t1.tSet) with
          entries := (tok, ⟨⟨u, s⟩, t1.tSet⟩) ::
            removeKey (cache0.set tok ⟨u, s⟩ t1.tSet).entries tok }) := by
    unfold SessionCache.get
    rw [hlk]
    exact if_pos hfresh2
  have hr2 : runMiddleware hook2 req resolver2 (some (cache0.set tok ⟨u, s⟩ t1.tSet)) t2 =
      ⟨Outcome.success, 0, [Injected.user u, Injected.session s], true,
        some { (cache0.set tok ⟨u, s⟩ t1.tSet) with
          entries := (tok, ⟨⟨u, s⟩, t1.tSet⟩) ::
            removeKey (cache0.set tok ⟨u, s⟩ t1.tSet).entries tok }⟩ := by
    unfold runMiddleware
    simp only [runTry, hex]
    rw [if_pos hhas2, hget2]
  refine ⟨hr1, ?_, ?_, ?_, ?_⟩
  · rw [hr2]
  · rw [hr2]
  · rw [hr2, hr1]
  · rw [hr2]

/-- Witness for C8 at concrete values: an empty cold cache of capacity 10 and
time-to-live 300000 milliseconds, the token abc extracted from the cookie
header, and a second run five milliseconds later against a resolver that
would reject. -/
theorem C8_warm_cache_idempotent_witness :
    runMiddleware none ⟨some "session_token=abc"⟩
      (Except.ok ⟨some ⟨some ⟨"u1", "a@b.com", none⟩, some ⟨"s1", "u1", "2030"⟩⟩, none⟩)
      (some (SessionCache.mkEmpty 10 300000)) ⟨0, 0, 0⟩ =
      ⟨Outcome.success, 1,
        [Injected.user ⟨"u1", "a@b.com", none⟩, Injected.session ⟨"s1", "u1", "2030"⟩],
        true, some ((SessionCache.mkEmpty 10 300000).set "abc"
          ⟨⟨"u1", "a@b.com", none⟩, ⟨"s1", "u1", "2030"⟩⟩ 0)⟩ ∧
    (runMiddleware none ⟨some "session_token=abc"⟩ (Except.error ThrownError.other)
      (some ((SessionCache.mkEmpty 10 300000).set "abc"
        ⟨⟨"u1", "a@b.com", none⟩, ⟨"s1", "u1", "2030"⟩⟩ 0)) ⟨5, 5, 5⟩).outcome =
      Outcome.success ∧
    (runMiddleware none ⟨some "session_token=abc"⟩ (Except.error ThrownError.other)
      (some ((SessionCache.mkEmpty 10 300000).set "abc"
        ⟨⟨"u1", "a@b.com", none⟩, ⟨"s1", "u1", "2030"⟩⟩ 0)) ⟨5, 5, 5⟩).remoteCalls = 0 ∧
    (runMiddleware none ⟨some "session_token=abc"⟩ (Except.error ThrownError.other)
      (some ((SessionCache.mkEmpty 10 300000).set "abc"
        ⟨⟨"u1", "a@b.com", none⟩, ⟨"s1", "u1", "2030"⟩⟩ 0)) ⟨5, 5, 5⟩).injected =
      (runMiddleware none ⟨some "session_token=abc"⟩
        (Except.ok ⟨some ⟨some ⟨"u1", "a@b.com", none⟩, some ⟨"s1", "u1", "2030"⟩⟩, none⟩)
        (some (SessionCache.mkEmpty 10 300000)) ⟨0, 0, 0⟩).injected ∧
    (runMiddleware none ⟨some "session_token=abc"⟩ (Except.error ThrownError.other)
      (some ((SessionCache.mkEmpty 10 300000).set "abc"
        ⟨⟨"u1", "a@b.com", none⟩, ⟨"s1", "u1", "2030"⟩⟩ 0)) ⟨5, 5, 5⟩).nextCalled = true :=
  C8_warm_cache_idempotent none none ⟨some "session_token=abc"⟩
    (Except.error ThrownError.other) (SessionCache.mkEmpty 10 300000) ⟨0, 0, 0⟩ ⟨5, 5, 5⟩
    "abc" ⟨"u1", "a@b.com", none⟩ ⟨"s1", "u1", "2030"⟩ (by decide) (by decide) (by decide)
    (by decide)

/-- C10 claim (confirmed): when has answers true but the following get comes
back empty (the entry having expired in between), the run falls through to
remote resolution exactly as on a miss — one remote call is made, and a
successful outcome can only carry the resolver's own user and session, never
an absent cached value. -/
theorem C10_stale_between_has_and_get
    (hook : Option (ThrownError → Except String AuthResponse)) (req : Headers)
    (resolver : Except ThrownError BetterAuthSessionResponse) (c : SessionCache)
    (t : Times) (tok : String)
    (hex : extractSessionToken ((truthyS req.cookie).getD "") = some tok)
    (hhas : c.has tok t.tHas = true)
    (hget : (c.get tok t.tGet).1 = none) :
    runTry req resolver (some c) t =
      remoteTry tok resolver (some (c.get tok t.tGet).2) t ∧
    (runMiddleware hook req resolver (some c) t).remoteCalls = 1 ∧
    (∀ r, runTry req resolver (some c) t = Sum.inl r →
      ∃ u s, r.injected = [Injected.user u, Injected.session s]) := by
  have h1 : runTry req resolver (some c) t =
      remoteTry tok resolver (some (c.get tok t.tGet).2) t := by
    simp only [runTry, hex]
    rw [if_pos hhas]
    rcases hpc : c.get tok t.tGet with ⟨g, c2⟩
    have hg : g = none := by
      rw [hpc] at hget
      exact hget
    subst hg
    rfl
  refine ⟨h1, ?_, ?_⟩
  · unfold runMiddleware
    rw [h1]
    rcases remoteTry_cases tok resolver (some (c.get tok t.tGet).2) t with
      ⟨r, hr, hcalls⟩ | ⟨e, he⟩
    · rw [hr]
      exact hcalls
    · rw [he]
      exact (failWith_injected_cache hook e _ 1).2.2
  · intro r hr
    rw [h1] at hr
    exact (remoteTry_inl _ _ _ _ r hr).2.2.2

/-- Witness for C10: a one-entry cache whose entry is fresh at time 500 but
expired at the get time 1500; the run falls through to the remote resolver
and performs exactly one remote call. -/
theorem C10_stale_between_has_and_get_witness :
    runTry ⟨some "session_token=abc"⟩ (Except.ok ⟨none, none⟩)
      (some ⟨10, 1000, [("abc", ⟨ctxW, 0⟩)]⟩) ⟨500, 1500, 1500⟩ =
      remoteTry "abc" (Except.ok ⟨none, none⟩)
        (some ((⟨10, 1000, [("abc", ⟨ctxW, 0⟩)]⟩ : SessionCache).get "abc" 1500).2)
        ⟨500, 1500, 1500⟩ ∧
    (runMiddleware none ⟨some "session_token=abc"⟩ (Except.ok ⟨none, none⟩)
      (some ⟨10, 1000, [("abc", ⟨ctxW, 0⟩)]⟩) ⟨500, 1500, 1500⟩).remoteCalls = 1 ∧
    (∀ r, runTry ⟨some "session_token=abc"⟩ (Except.ok ⟨none, none⟩)
        (some ⟨10, 1000, [("abc", ⟨ctxW, 0⟩)]⟩) ⟨500, 1500, 1500⟩ = Sum.inl r →
      ∃ u s, r.injected = [Injected.user u, Injected.session s]) :=
  C10_stale_between_has_and_get none ⟨some "session_token=abc"⟩ (Except.ok ⟨none, none⟩)
    ⟨10, 1000, [("abc", ⟨ctxW, 0⟩)]⟩ ⟨500, 1500, 1500⟩ "abc" (by decide) (by decide)
    (by decide)

/-- Witness for C7: with no hook configured, a concrete failing run does not
raise. -/
theorem C7_hook_result_and_no_escape_witness :
    (runMiddleware none ⟨none⟩ (Except.ok ⟨none, none⟩) none ⟨0, 0, 0⟩).outcome ≠
      Outcome.raised "boom" :=
  (C7_hook_result_and_no_escape ⟨none⟩ (Except.ok ⟨none, none⟩) none ⟨0, 0, 0⟩).1 "boom"

end BetterMiddleware
